import Mathlib

/-!
Verification of the color-resolution and tag-synchronization engine of
`colors.py` (the irisbot color module) against its specification.

The Python source is shallowly embedded below:

* pure byte/color arithmetic (`quantize`, `from_rgb`, `rgb9`, `hex2color`)
  becomes pure functions on `Nat` / `List Char`;
* Python's builtin `int(s, base=16)` (called by `hex2color`) is modelled by
  `pyIntHex` for ASCII inputs: optional surrounding whitespace, an optional
  sign, an optional `0x`/`0X` base marker, and hexadecimal digits optionally
  separated by single underscores;
* the floating-point relative-luminance function is kept as an explicit
  parameter `lum` of `clamp_luminance` (IEEE-754 doubles and `** 2.4` are not
  reproducible exactly; every theorem below either holds for all `lum` or is
  evaluated at an explicitly chosen rational instance);
* the role cache and the Discord tag store (not part of this file's source)
  are modelled from the specification's external interfaces, see the marked
  definitions;
* the `async` check-then-create of `role_for_color` is modelled as a two-task
  step relation whose schedules interleave at the single `await` point.
-/

namespace Irisbot

/-! ## ColorCodec: hex digits, parsing, formatting -/

/-- Value of an ASCII hexadecimal digit character, case-insensitive
(`0`-`9`, `a`-`f`, `A`-`F`); `none` for every other character. -/
def hexDigitVal? (c : Char) : Option Nat :=
  let n := c.toNat
  if 48 ≤ n ∧ n ≤ 57 then some (n - 48)
  else if 97 ≤ n ∧ n ≤ 102 then some (n - 87)
  else if 65 ≤ n ∧ n ≤ 70 then some (n - 55)
  else none

/-- Is the character an ASCII hex digit (pattern class `[0-9A-Fa-f]`)? -/
def isHexDigitChar (c : Char) : Bool :=
  (hexDigitVal? c).isSome

/-- Lowercase hex digit character of a value `< 16` (as produced by Python's
`'{:x}'` formatting): codes 48–57 for `0`–`9`, 97–102 for `a`–`f`. -/
def toHexChar (n : Nat) : Char :=
  if n < 10 then Char.ofNat (48 + n) else Char.ofNat (87 + n)

/-- The six hex digits of a packed 24-bit color value, most significant
first (Python `'{:0>6x}'.format(value)` for values `< 16^6`). -/
def hexDigitsOf (c : Nat) : List Char :=
  [toHexChar (c / 1048576 % 16), toHexChar (c / 65536 % 16),
   toHexChar (c / 4096 % 16), toHexChar (c / 256 % 16),
   toHexChar (c / 16 % 16), toHexChar (c % 16)]

/-- `str(color)` for a Discord color: `'#'` followed by six lowercase hex
digits (`discord.Colour.__str__`). -/
def formatColor (c : Nat) : List Char :=
  '#' :: hexDigitsOf c

/-- ASCII whitespace stripped by Python's `int` conversion. -/
def isPyWs (c : Char) : Bool :=
  c = ' ' ∨ c = '\t' ∨ c = '\n' ∨ c = '\r' ∨ c = Char.ofNat 11 ∨ c = Char.ofNat 12

/-- Digit-run scanner of Python's `int(s, 16)`: hexadecimal digits with
single underscores allowed strictly between digits.  `acc` is the value of
the digits consumed so far, `afterU` records whether the previous character
was an underscore. -/
def goDigits : List Char → Nat → Bool → Option Nat
  | [], acc, afterU => if afterU then none else some acc
  | c :: cs, acc, afterU =>
    match hexDigitVal? c with
    | some d => goDigits cs (16 * acc + d) false
    | none => if c = '_' ∧ ¬afterU then goDigits cs acc true else none

/-- A nonempty digit run: must begin with a hex digit. -/
def digitsPart : List Char → Option Nat
  | [] => none
  | c :: cs =>
    match hexDigitVal? c with
    | some d => goDigits cs d false
    | none => none

/-- After the optional sign, Python's `int(s, 16)` accepts an optional
`0x`/`0X` marker (itself optionally followed by one underscore). -/
def afterSignPart : List Char → Option Nat
  | '0' :: x :: rest =>
    if x = 'x' ∨ x = 'X' then
      match rest with
      | '_' :: r2 => digitsPart r2
      | _ => digitsPart rest
    else digitsPart ('0' :: x :: rest)
  | cs => digitsPart cs

/-- Model of Python's builtin `int(s, base=16)` on ASCII strings: strip
surrounding whitespace, then an optional sign, an optional base marker and a
digit run.  `none` models `ValueError`. -/
def pyIntHex (cs : List Char) : Option Int :=
  let core := ((cs.dropWhile isPyWs).reverse.dropWhile isPyWs).reverse
  match core with
  | '+' :: rest => (afterSignPart rest).map Int.ofNat
  | '-' :: rest => (afterSignPart rest).map (fun n => -(n : Int))
  | rest => (afterSignPart rest).map Int.ofNat

/-- `if code.startswith('#'): code = code[1:]` from `hex2color`. -/
def stripHash : List Char → List Char
  | '#' :: rest => rest
  | cs => cs

/-- The 3-digit shorthand expansion of `hex2color`:
`if len(code) == 3: code = ''.join(c + c for c in code)`. -/
def dup3 (cs : List Char) : List Char :=
  if cs.length = 3 then (cs.map (fun c => [c, c])).flatten else cs

/-- `hex2color` from the source: strip one leading `#`, duplicate each
character of a 3-character code, require length 6, and convert with
`int(code, base=16)` (wrapped in `discord.Color`, modelled as the plain
integer).  `none` models the raised `ValueError`. -/
def hex2color (code : List Char) : Option Int :=
  let code2 := dup3 (stripHash code)
  if code2.length ≠ 6 then none
  else pyIntHex code2

/-- The strict hex pattern `'#?([0-9A-Fa-f]{3}|[0-9A-Fa-f]{6})'` used with
`fullmatch` in `get_color_info`: an optional leading `#` followed by exactly
3 or exactly 6 hex digits. -/
def hexMatch (cs : List Char) : Bool :=
  let core := stripHash cs
  (core.length = 3 ∨ core.length = 6) ∧ core.all isHexDigitChar

/-- Folded value of a list of hex digit characters, most significant
first. -/
def hexFold (ds : List Char) : Nat :=
  ds.foldl (fun a c => 16 * a + (hexDigitVal? c).getD 0) 0

/-! ## Quantizer and channel packing -/

/-- `quantize` from the source: keep a byte's top three bits and replicate
them downward (`top = x & (7 << 5); top | top >> 3 | top >> 6`). -/
def quantize (x : Nat) : Nat :=
  let top := x &&& (7 <<< 5)
  top ||| top >>> 3 ||| top >>> 6

/-- The red channel of a packed Discord color value. -/
def chanR (c : Nat) : Nat := (c >>> 16) &&& 255

/-- The green channel of a packed Discord color value. -/
def chanG (c : Nat) : Nat := (c >>> 8) &&& 255

/-- The blue channel of a packed Discord color value. -/
def chanB (c : Nat) : Nat := c &&& 255

/-- `from_rgb` from the source: clamp each (possibly fractional) channel to
`[0, 255]`, truncate to an integer (`int(...)`, i.e. `floor` on the
nonnegative clamped value) and pack `r << 16 | g << 8 | b`. -/
def from_rgb (r g b : ℚ) : Nat :=
  let ch : ℚ → Nat := fun x => ((max 0 (min x 255)).floor).toNat
  ch r <<< 16 ||| ch g <<< 8 ||| ch b

/-- `rgb9` from the source: quantize each channel to 3-bit depth and
repack. -/
def rgb9 (c : Nat) : Nat :=
  from_rgb (quantize (chanR c)) (quantize (chanG c)) (quantize (chanB c))

/-! ## LuminanceClamp

The relative-luminance computation in the source runs on IEEE-754 doubles
(including a `** 2.4` power).  It is kept as an explicit parameter
`lum : ℚ × ℚ × ℚ → ℚ` of the embedding; the surrounding control flow
(the 0.5 channel floor, the band comparison, the 10-iteration bisection, the
scale/clamp/repack steps) is translated exactly from the source. -/

/-- `scale_color` from the source: multiply each channel by `a`, optionally
clamping each product at `clamp` (Python's `if clamp:` is falsy for `0`). -/
def scale_color (a : ℚ) (rgb : ℚ × ℚ × ℚ) (clamp : Option ℚ) : ℚ × ℚ × ℚ :=
  match clamp with
  | some cl =>
    if cl = 0 then (a * rgb.1, a * rgb.2.1, a * rgb.2.2)
    else (min cl (a * rgb.1), min cl (a * rgb.2.1), min cl (a * rgb.2.2))
  | none => (a * rgb.1, a * rgb.2.1, a * rgb.2.2)

/-- Loop of `bisection_search`: `n` halvings of `[a, b]`, carrying the
predicate's value at both endpoints; the midpoint replaces the endpoint
whose predicate value it shares. -/
def bisectGo (f : ℚ → Bool) : Nat → ℚ → Bool → ℚ → Bool → ℚ
  | 0, a, fa, b, _fb => if fa then a else b
  | Nat.succ k, a, fa, b, fb =>
    let m := (a + b) / 2
    let fm := f m
    if fm ≠ fa then bisectGo f k a fa m fm else bisectGo f k m fm b fb

/-- `bisection_search` from the source (default iteration count `n = 10`
supplied at call sites). -/
def bisection_search (f : ℚ → Bool) (a b : ℚ) (n : Nat) : ℚ :=
  bisectGo f n a (f a) b (f b)

/-- The floored sRGB fractions of a packed color:
`[max(x, 0.5) / 255 for x in rgb]`. -/
def srgbOf (c : Nat) : ℚ × ℚ × ℚ :=
  (max (chanR c : ℚ) (1 / 2) / 255, max (chanG c : ℚ) (1 / 2) / 255,
   max (chanB c : ℚ) (1 / 2) / 255)

/-- `clamp_luminance` from the source, with the floating-point relative
luminance abstracted as `lum`.  Colors whose luminance is below `minL` are
brightened (bisection over scale factors in `[1, 255]`), colors above `maxL`
are darkened (bisection over `[0, 1]`), colors inside the band are returned
unchanged. -/
def clamp_luminance (lum : ℚ × ℚ × ℚ → ℚ) (minL maxL : ℚ) (c : Nat) : Nat :=
  let srgb := srgbOf c
  let L := lum srgb
  if L < minL then
    let f := fun a => decide (lum (scale_color a srgb (some 1)) ≥ minL)
    let a := bisection_search f 1 255 10
    let t := scale_color (a * 255) srgb none
    from_rgb t.1 t.2.1 t.2.2
  else if L > maxL then
    let f := fun a => decide (lum (scale_color a srgb (some 1)) ≤ maxL)
    let a := bisection_search f 0 1 10
    let t := scale_color (a * 255) srgb none
    from_rgb t.1 t.2.1 t.2.2
  else c

/-- Lines 220–223 of the source (`Colors.color`): start from the resolved
color, apply `rgb9` when the restricted palette is enabled, then apply
`clamp_luminance`, producing the color handed to `set_color`. -/
def effective_of (lum : ℚ × ℚ × ℚ → ℚ) (limitPalette : Bool) (minL maxL : ℚ)
    (desired : Nat) : Nat :=
  let e := if limitPalette then rgb9 desired else desired
  clamp_luminance lum minL maxL e

/-! ## ColorResolver

`get_color_info` consults the external name service through two functions
(spec §6): `findExact : name → optional (hexcode, canonicalName)` and
`disambiguate : name → candidate names`.  Both are parameters of the
embedding.  The returned pair mirrors the source's
`(discord color or None, list of names)`; `Except.error ()` models an
uncaught exception escaping the function. -/

/-- `get_color_info` from the source: a strict hex match short-circuits to
`hex2color`; otherwise an exact name lookup, then disambiguation; a single
candidate is resolved exactly; anything else yields `(None, candidates)`. -/
def get_color_info (findExact : List Char → Option (List Char × List Char))
    (disambiguate : List Char → List (List Char)) (color : List Char) :
    Except Unit (Option Int × List (List Char)) :=
  if hexMatch color then
    match hex2color color with
    | some v => .ok (some v, [])
    | none => .error ()
  else
    match findExact color with
    | some (code, canonical) =>
      match hex2color code with
      | some v => .ok (some v, [canonical])
      | none => .error ()
    | none =>
      match disambiguate color with
      | [best] =>
        match findExact best with
        | some (code, canonical) =>
          match hex2color code with
          | some v => .ok (some v, [canonical])
          | none => .error ()
        | none => .error ()
      | candidates => .ok (none, candidates)

/-! ## TagSynchronizer

Roles ("tags") live in a per-server store.  `rolecache.RoleCache` (the
role-cache base class of `Colors`) is not part of this file's source;
`get_role` is modelled from the spec.  `discord`'s
`create_role` / `remove_roles` / `replace_roles` are the spec's external tag
store operations. -/

/-- A namespace-scoped tag: a unique id and a display label. -/
structure Role where
  id : Nat
  name : List Char
deriving DecidableEq, Repr

/-- Strip a literal prefix from a character list (the `re.escape(prefix)`
part of `ROLE_REGEX`); `none` when the list does not start with it. -/
def dropPre : List Char → List Char → Option (List Char)
  | [], cs => some cs
  | _ :: _, [] => none
  | p :: ps, c :: cs => if c = p then dropPre ps cs else none

/-- `key_for_role` from the source: `ROLE_REGEX.fullmatch(role.name)` with
pattern `re.escape(prefix) + '(#[a-fA-F0-9]{6})'`; on success the captured
`#`-code, lowercased (`Char.toLower` is Python's `.lower()` on the ASCII
characters the group can contain). -/
def key_for_role (pre : List Char) (name : List Char) : Option (List Char) :=
  match dropPre pre name with
  | some rest =>
    match rest with
    | '#' :: ds =>
      if ds.length = 6 ∧ ds.all isHexDigitChar then some (rest.map Char.toLower)
      else none
    | _ => none
  | none => none

/-- `is_color_role` from the source: does the role name fully match
`ROLE_REGEX`? -/
def is_color_role (pre : List Char) (name : List Char) : Bool :=
  (key_for_role pre name).isSome

/-- Modelled from the spec: `getTagByLabelFragment(namespace, hexcode)` —
the role-cache lookup `self.get_role(server, key)` provided by the missing
`rolecache.RoleCache` base class, which indexes a server's roles by
`key_for_role`. -/
def get_role (pre : List Char) (roles : List Role) (key : List Char) : Option Role :=
  roles.find? (fun r => decide (key_for_role pre r.name = some key))

/-- `role_for_color` from the source, sequentially: look the key up in the
store and create a role named `prefix + str(color)` when absent.  `fid` is
the id the external store gives a newly created role.  Returns the role and
the updated store. -/
def role_for_color (pre : List Char) (roles : List Role) (key : List Char)
    (fid : Nat) : Role × List Role :=
  match get_role pre roles key with
  | some r => (r, roles)
  | none => (⟨fid, pre ++ key⟩, roles ++ [⟨fid, pre ++ key⟩])

/-- `set_color` from the source.  State is `(server roles, member roles)`.
With a color: look up / create the tag for `str(color)` and replace the
member's roles by the non-color ones plus the new tag
(`[r for r in member.roles if r.id not in old_role_ids] + [new_role]`).
With `None`: `remove_roles(member, *old_roles)` — drop the member's
color-roles, leaving the server's stored tags alone. -/
def set_color (pre : List Char) (server memberRoles : List Role) (fid : Nat)
    (color : Option Nat) : List Role × List Role :=
  let old := memberRoles.filter (fun r => is_color_role pre r.name)
  match color with
  | none =>
    (server, memberRoles.filter (fun r => decide (r.id ∉ old.map Role.id)))
  | some c =>
    let res := role_for_color pre server (formatColor c) fid
    let oldIds := old.map Role.id
    (res.2, (memberRoles.filter (fun r => decide (r.id ∉ oldIds))) ++ [res.1])

/-! ## The check-then-create race of `role_for_color`

`role_for_color` is `async`: the store lookup is synchronous, the creation
awaits the external store, so a second request for the same key can run its
lookup between another request's lookup and creation.  The two coroutines
are modelled as a step relation; a schedule is a list of task choices. -/

/-- Program counter of one `role_for_color` coroutine. -/
inductive TaskPc
  | start
  | looked (found : Bool)
  | done
deriving DecidableEq, Repr

/-- One atomic step of a `role_for_color` coroutine for key `key` and fresh
id `fid`: from `start`, perform the cache lookup; from `looked false`,
create the role; from `looked true` (or `done`), finish without writing. -/
def taskStep (pre key : List Char) (fid : Nat) (roles : List Role) :
    TaskPc → List Role × TaskPc
  | .start => (roles, .looked (get_role pre roles key).isSome)
  | .looked found =>
    if found then (roles, .done) else (roles ++ [⟨fid, pre ++ key⟩], .done)
  | .done => (roles, .done)

/-- Shared store plus the two coroutines' program counters. -/
structure RaceState where
  roles : List Role
  pc0 : TaskPc
  pc1 : TaskPc
deriving Repr

/-- Run one step of the task selected by the scheduler. -/
def raceStep (pre key : List Char) (fid0 fid1 : Nat) (s : RaceState)
    (pick : Bool) : RaceState :=
  if pick then
    let r := taskStep pre key fid1 s.roles s.pc1
    ⟨r.1, s.pc0, r.2⟩
  else
    let r := taskStep pre key fid0 s.roles s.pc0
    ⟨r.1, r.2, s.pc1⟩

/-- Run a whole schedule. -/
def raceRun (pre key : List Char) (fid0 fid1 : Nat) (sched : List Bool)
    (s : RaceState) : RaceState :=
  sched.foldl (raceStep pre key fid0 fid1) s

/-- Number of tags in the store whose key is `key`. -/
def countKey (pre key : List Char) (roles : List Role) : Nat :=
  (roles.filter (fun r => decide (key_for_role pre r.name = some key))).length

/-! ## Basic character and digit lemmas -/

theorem hexDigitVal_toHexChar (d : Nat) (h : d < 16) :
    hexDigitVal? (toHexChar d) = some d := by
  interval_cases d <;> decide

theorem isHex_toHexChar (d : Nat) (h : d < 16) :
    isHexDigitChar (toHexChar d) = true := by
  simp [isHexDigitChar, hexDigitVal_toHexChar d h]

/-- The three ASCII ranges a hex digit character can inhabit. -/
theorem hex_toNat_ranges (c : Char) (h : isHexDigitChar c = true) :
    (48 ≤ c.toNat ∧ c.toNat ≤ 57) ∨ (97 ≤ c.toNat ∧ c.toNat ≤ 102) ∨
      (65 ≤ c.toNat ∧ c.toNat ≤ 70) := by
  simp only [isHexDigitChar, hexDigitVal?] at h
  split_ifs at h with h1 h2 h3
  · exact Or.inl h1
  · exact Or.inr (Or.inl h2)
  · exact Or.inr (Or.inr h3)
  · simp at h

theorem isPyWs_eq_false_of_hex (c : Char) (h : isHexDigitChar c = true) :
    isPyWs c = false := by
  have hr := hex_toNat_ranges c h
  unfold isPyWs
  rw [decide_eq_false_iff_not]
  rintro (rfl | rfl | rfl | rfl | rfl | rfl) <;> exact absurd hr (by decide)

theorem hex_ne_plus (c : Char) (h : isHexDigitChar c = true) : c ≠ '+' := by
  rintro rfl; exact absurd (hex_toNat_ranges _ h) (by decide)

theorem hex_ne_minus (c : Char) (h : isHexDigitChar c = true) : c ≠ '-' := by
  rintro rfl; exact absurd (hex_toNat_ranges _ h) (by decide)

theorem hex_ne_x (c : Char) (h : isHexDigitChar c = true) :
    ¬(c = 'x' ∨ c = 'X') := by
  rintro (rfl | rfl) <;> exact absurd (hex_toNat_ranges _ h) (by decide)

theorem goDigits_all_hex (cs : List Char) (acc : Nat)
    (h : cs.all isHexDigitChar = true) :
    goDigits cs acc false =
      some (cs.foldl (fun a c => 16 * a + (hexDigitVal? c).getD 0) acc) := by
  induction cs generalizing acc with
  | nil => rfl
  | cons c cs ih =>
    rw [List.all_cons, Bool.and_eq_true] at h
    obtain ⟨d, hd⟩ := Option.isSome_iff_exists.1 h.1
    rw [goDigits, hd, List.foldl_cons, hd]
    exact ih (16 * acc + d) h.2

theorem digitsPart_all_hex (c : Char) (cs : List Char)
    (h : (c :: cs).all isHexDigitChar = true) :
    digitsPart (c :: cs) = some (hexFold (c :: cs)) := by
  rw [List.all_cons, Bool.and_eq_true] at h
  obtain ⟨d, hd⟩ := Option.isSome_iff_exists.1 h.1
  have h1 : digitsPart (c :: cs) = goDigits cs d false := by
    simp only [digitsPart, hd]
  rw [h1, goDigits_all_hex cs d h.2, hexFold, List.foldl_cons, hd]
  norm_num

theorem afterSignPart_all_hex (c : Char) (cs : List Char)
    (h : (c :: cs).all isHexDigitChar = true) :
    afterSignPart (c :: cs) = digitsPart (c :: cs) := by
  unfold afterSignPart
  split
  · rename_i x rest heq
    have hc : c = '0' := (List.cons.injEq _ _ _ _ ▸ heq).1
    have hcs : cs = x :: rest := (List.cons.injEq _ _ _ _ ▸ heq).2
    have hx : isHexDigitChar x = true := by
      subst hcs
      rw [List.all_cons, List.all_cons] at h
      simp only [Bool.and_eq_true] at h
      exact h.2.1
    rw [if_neg (hex_ne_x x hx), ← hc, ← hcs]
  · rfl

theorem stripWs_all_hex (cs : List Char)
    (h : cs.all isHexDigitChar = true) :
    ((cs.dropWhile isPyWs).reverse.dropWhile isPyWs).reverse = cs := by
  have hall : ∀ c ∈ cs, isHexDigitChar c = true := List.all_eq_true.1 h
  have hdrop : cs.dropWhile isPyWs = cs := by
    cases cs with
    | nil => rfl
    | cons c t =>
      rw [List.dropWhile_cons,
        isPyWs_eq_false_of_hex c (hall c (List.mem_cons_self c t))]
      simp
  rw [hdrop]
  have hdrop2 : cs.reverse.dropWhile isPyWs = cs.reverse := by
    cases hr : cs.reverse with
    | nil => rfl
    | cons c t =>
      have hc : c ∈ cs := by
        rw [← List.mem_reverse, hr]
        exact List.mem_cons_self c t
      rw [List.dropWhile_cons, isPyWs_eq_false_of_hex c (hall c hc)]
      simp
  rw [hdrop2, List.reverse_reverse]

theorem pyIntHex_all_hex (c : Char) (cs : List Char)
    (h : (c :: cs).all isHexDigitChar = true) :
    pyIntHex (c :: cs) = some (Int.ofNat (hexFold (c :: cs))) := by
  have hc : isHexDigitChar c = true := by
    rw [List.all_cons, Bool.and_eq_true] at h
    exact h.1
  have hcore := stripWs_all_hex (c :: cs) h
  simp only [pyIntHex, hcore]
  split
  · rename_i rest heq
    exact absurd (List.cons.injEq _ _ _ _ ▸ heq).1 (hex_ne_plus c hc)
  · rename_i rest heq
    exact absurd (List.cons.injEq _ _ _ _ ▸ heq).1 (hex_ne_minus c hc)
  · rw [afterSignPart_all_hex c cs h, digitsPart_all_hex c cs h]
    rfl

theorem flatten_dup_all (cs : List Char) (p : Char → Bool) :
    ((cs.map fun c => [c, c]).flatten).all p = cs.all p := by
  induction cs with
  | nil => rfl
  | cons c t ih =>
    simp only [List.map_cons, List.flatten_cons, List.all_append,
      List.all_cons, List.all_nil, ih]
    cases p c <;> simp

theorem flatten_dup_length (cs : List Char) :
    ((cs.map fun c => [c, c]).flatten).length = 2 * cs.length := by
  induction cs with
  | nil => rfl
  | cons c t ih =>
    simp only [List.map_cons, List.flatten_cons, List.length_append,
      List.length_cons, ih]
    simp
    omega

theorem dup3_all (cs : List Char) (p : Char → Bool) :
    (dup3 cs).all p = cs.all p := by
  unfold dup3
  split
  · exact flatten_dup_all cs p
  · rfl

theorem dup3_length (cs : List Char) :
    (dup3 cs).length = if cs.length = 3 then 6 else cs.length := by
  unfold dup3
  split <;> rename_i h3
  · rw [flatten_dup_length, h3]
  · rfl

theorem toNat_ofNat_of_valid (n : Nat) (h : n < 55296) :
    (Char.ofNat n).toNat = n := by
  have hv : Nat.isValidChar n := Or.inl h
  unfold Char.ofNat
  rw [dif_pos hv]
  simp [Char.ofNatAux, Char.toNat, UInt32.toNat]

theorem toLower_hexDigitVal (c : Char) (h : isHexDigitChar c = true) :
    hexDigitVal? (Char.toLower c) = hexDigitVal? c := by
  rcases hex_toNat_ranges c h with h1 | h2 | h3
  · unfold Char.toLower
    rw [if_neg (by omega)]
  · unfold Char.toLower
    rw [if_neg (by omega)]
  · unfold Char.toLower
    rw [if_pos (by omega)]
    have ht : (Char.ofNat (c.toNat + 32)).toNat = c.toNat + 32 :=
      toNat_ofNat_of_valid _ (by omega)
    simp only [hexDigitVal?, ht]
    rw [if_neg (by omega), if_pos (by omega), if_neg (by omega),
      if_neg (by omega), if_pos (by omega), show c.toNat + 32 - 87 = c.toNat - 55 by omega]

theorem toLower_isHex (c : Char) (h : isHexDigitChar c = true) :
    isHexDigitChar (Char.toLower c) = true := by
  rw [isHexDigitChar, toLower_hexDigitVal c h]
  exact h

/-- The lowercase image of a hex digit has code in `[48, 57]` or
`[97, 102]`; in particular it is not `#`. -/
theorem toLower_hex_toNat (c : Char) (h : isHexDigitChar c = true) :
    (48 ≤ (Char.toLower c).toNat ∧ (Char.toLower c).toNat ≤ 57) ∨
      (97 ≤ (Char.toLower c).toNat ∧ (Char.toLower c).toNat ≤ 102) := by
  rcases hex_toNat_ranges c h with h1 | h2 | h3
  · unfold Char.toLower
    rw [if_neg (by omega)]
    exact Or.inl h1
  · unfold Char.toLower
    rw [if_neg (by omega)]
    exact Or.inr h2
  · unfold Char.toLower
    rw [if_pos (by omega)]
    rw [toNat_ofNat_of_valid _ (by omega)]
    omega

theorem toLower_hex_ne_hash (c : Char) (h : isHexDigitChar c = true) :
    Char.toLower c ≠ '#' := by
  intro he
  have hn : (Char.toLower c).toNat = 35 := by rw [he]; rfl
  have := toLower_hex_toNat c h
  omega

theorem stripHash_cons_ne (c : Char) (r : List Char) (h : c ≠ '#') :
    stripHash (c :: r) = c :: r := by
  unfold stripHash
  split
  · rename_i rest heq
    exact absurd (List.cons.injEq _ _ _ _ ▸ heq).1 h
  · rfl

theorem hexFold_foldl_map_toLower (ds : List Char) (acc : Nat)
    (h : ds.all isHexDigitChar = true) :
    (ds.map Char.toLower).foldl (fun a c => 16 * a + (hexDigitVal? c).getD 0) acc =
      ds.foldl (fun a c => 16 * a + (hexDigitVal? c).getD 0) acc := by
  induction ds generalizing acc with
  | nil => rfl
  | cons c t ih =>
    rw [List.all_cons, Bool.and_eq_true] at h
    rw [List.map_cons, List.foldl_cons, List.foldl_cons,
      toLower_hexDigitVal c h.1]
    exact ih _ h.2

theorem hexFold_map_toLower (ds : List Char)
    (h : ds.all isHexDigitChar = true) :
    hexFold (ds.map Char.toLower) = hexFold ds :=
  hexFold_foldl_map_toLower ds 0 h

theorem flatten_dup_map (f : Char → Char) (cs : List Char) :
    ((cs.map f).map (fun c => [c, c])).flatten =
      ((cs.map (fun c => [c, c])).flatten).map f := by
  induction cs with
  | nil => rfl
  | cons c t ih =>
    simp only [List.map_cons, List.flatten_cons, List.map_append, ih]
    rfl

theorem dup3_map (f : Char → Char) (cs : List Char) :
    dup3 (cs.map f) = (dup3 cs).map f := by
  unfold dup3
  rw [List.length_map]
  split
  · exact flatten_dup_map f cs
  · rfl

theorem stripHash_map_toLower (cs : List Char) (h : hexMatch cs = true) :
    stripHash (cs.map Char.toLower) = (stripHash cs).map Char.toLower := by
  cases cs with
  | nil => rfl
  | cons c r =>
    by_cases hc : c = '#'
    · subst hc
      rw [List.map_cons, show Char.toLower '#' = '#' from by decide]
      rfl
    · have hcore : stripHash (c :: r) = c :: r := stripHash_cons_ne c r hc
      have hhex : isHexDigitChar c = true := by
        have h' : ((stripHash (c :: r)).length = 3 ∨ (stripHash (c :: r)).length = 6) ∧
            (stripHash (c :: r)).all isHexDigitChar = true := by
          simpa [hexMatch] using h
        have := h'.2
        rw [hcore, List.all_cons, Bool.and_eq_true] at this
        exact this.1
      rw [hcore, List.map_cons,
        stripHash_cons_ne _ _ (toLower_hex_ne_hash c hhex)]

theorem hexMatch_map_toLower (cs : List Char) (h : hexMatch cs = true) :
    hexMatch (cs.map Char.toLower) = true := by
  have h' : ((stripHash cs).length = 3 ∨ (stripHash cs).length = 6) ∧
      (stripHash cs).all isHexDigitChar = true := by
    simpa [hexMatch] using h
  have hall : ∀ c ∈ stripHash cs, isHexDigitChar c = true :=
    List.all_eq_true.1 h'.2
  have : ((stripHash (cs.map Char.toLower)).length = 3 ∨
      (stripHash (cs.map Char.toLower)).length = 6) ∧
      (stripHash (cs.map Char.toLower)).all isHexDigitChar = true := by
    rw [stripHash_map_toLower cs h, List.length_map]
    refine ⟨h'.1, ?_⟩
    rw [List.all_map]
    exact List.all_eq_true.2 fun c hc => toLower_isHex c (hall c hc)
  simpa [hexMatch] using this

/-- Inputs matching the strict hex pattern parse successfully, to the value
of their (3-digit-duplicated) 6-digit core. -/
theorem hex2color_of_match (cs : List Char) (h : hexMatch cs = true) :
    hex2color cs = some (Int.ofNat (hexFold (dup3 (stripHash cs)))) := by
  have h' : ((stripHash cs).length = 3 ∨ (stripHash cs).length = 6) ∧
      (stripHash cs).all isHexDigitChar = true := by
    simpa [hexMatch] using h
  have hlen : (dup3 (stripHash cs)).length = 6 := by
    rw [dup3_length]
    rcases h'.1 with h3 | h6
    · rw [if_pos h3]
    · rw [if_neg (by omega), h6]
  have hall : (dup3 (stripHash cs)).all isHexDigitChar = true := by
    rw [dup3_all]
    exact h'.2
  unfold hex2color
  rw [if_neg (by omega)]
  match hcons : dup3 (stripHash cs) with
  | [] => rw [hcons] at hlen; simp at hlen
  | c :: t =>
    rw [hcons] at hall
    exact pyIntHex_all_hex c t hall

/-! ## Claim theorems: ColorCodec -/

/-- C3 counterexample: `hex2color` does not fail on every string containing
a non-hex-digit character.  `"0x1234"` does not match the claimed pattern
(optional `#` plus 3 or 6 hex digits) yet parses successfully, because
Python's `int(code, 16)` accepts a `0x` base marker. -/
theorem claim3_counterexample :
    hexMatch ['0', 'x', '1', '2', '3', '4'] = false ∧
      hex2color ['0', 'x', '1', '2', '3', '4'] = some 4660 := by
  constructor
  · decide
  · rfl

/-- C3 (amended): `hex2color` fails on every input whose `#`-stripped core
has a length other than 3 or 6; every input matching the strict pattern
(optional `#` plus 3 or 6 hex digits) parses successfully, a 3-digit core
being expanded by duplicating each digit, and parsing is case-insensitive.
(For right-length inputs, failure is governed by Python's `int(·, 16)`
acceptance, which also admits some strings with non-hex-digit characters,
e.g. a `0x` prefix — see the counterexample.) -/
theorem claim3_amended :
    (∀ cs : List Char, (stripHash cs).length ≠ 3 → (stripHash cs).length ≠ 6 →
        hex2color cs = none) ∧
    (∀ cs : List Char, hexMatch cs = true →
        hex2color cs = some (Int.ofNat (hexFold (dup3 (stripHash cs))))) ∧
    (∀ cs : List Char, hexMatch cs = true →
        hex2color (cs.map Char.toLower) = hex2color cs) := by
  refine ⟨?_, hex2color_of_match, ?_⟩
  · intro cs h3 h6
    have hne : (dup3 (stripHash cs)).length ≠ 6 := by
      rw [dup3_length, if_neg h3]
      exact h6
    unfold hex2color
    rw [if_pos hne]
  · intro cs h
    have h' : ((stripHash cs).length = 3 ∨ (stripHash cs).length = 6) ∧
        (stripHash cs).all isHexDigitChar = true := by
      simpa [hexMatch] using h
    rw [hex2color_of_match _ (hexMatch_map_toLower cs h), hex2color_of_match _ h,
      stripHash_map_toLower cs h, dup3_map,
      hexFold_map_toLower _ (by rw [dup3_all]; exact h'.2)]

/-- Witness for C3 (amended) at concrete inputs: `"#AbC"` parses (to
`#aabbcc`), `"ffff"` (length 4) fails, and lowercasing `"#AbC"` does not
change the parse. -/
theorem claim3_amended_witness :
    hex2color ['#', 'A', 'b', 'C'] = some 11189196 ∧
      hex2color ['f', 'f', 'f', 'f'] = none ∧
      hex2color ['#', 'a', 'b', 'c'] = hex2color ['#', 'A', 'b', 'C'] := by
  refine ⟨?_, ?_, ?_⟩
  · exact (claim3_amended.2.1 ['#', 'A', 'b', 'C'] (by decide)).trans (by decide)
  · exact claim3_amended.1 ['f', 'f', 'f', 'f'] (by decide) (by decide)
  · exact (by decide : List.map Char.toLower ['#', 'A', 'b', 'C'] = ['#', 'a', 'b', 'c']) ▸
      claim3_amended.2.2 ['#', 'A', 'b', 'C'] (by decide)

/-- C7: `parseHex` is a left inverse of `format`: for every color value
`c < 16^6`, parsing the lowercase `#rrggbb` form produced by `str(color)`
returns `c`. -/
theorem claim7_roundtrip (c : Nat) (h : c < 16777216) :
    hex2color (formatColor c) = some (Int.ofNat c) := by
  have hv : ∀ x : Nat, (hexDigitVal? (toHexChar (x % 16))).getD 0 = x % 16 := by
    intro x
    rw [hexDigitVal_toHexChar _ (Nat.mod_lt _ (by norm_num))]
    rfl
  have hall : (hexDigitsOf c).all isHexDigitChar = true := by
    refine List.all_eq_true.2 fun d hd => ?_
    simp only [hexDigitsOf, List.mem_cons, List.not_mem_nil, or_false] at hd
    rcases hd with rfl | rfl | rfl | rfl | rfl | rfl <;>
      exact isHex_toHexChar _ (Nat.mod_lt _ (by norm_num))
  have hstrip : stripHash (formatColor c) = hexDigitsOf c := rfl
  have hlen : (hexDigitsOf c).length = 6 := by simp [hexDigitsOf]
  have hdup : dup3 (hexDigitsOf c) = hexDigitsOf c := by
    unfold dup3
    rw [if_neg (by omega)]
  unfold hex2color
  rw [hstrip, hdup, if_neg (by omega)]
  rw [show hexDigitsOf c =
      toHexChar (c / 1048576 % 16) :: [toHexChar (c / 65536 % 16),
        toHexChar (c / 4096 % 16), toHexChar (c / 256 % 16),
        toHexChar (c / 16 % 16), toHexChar (c % 16)] from rfl,
    pyIntHex_all_hex _ _ hall]
  have hfold : hexFold (toHexChar (c / 1048576 % 16) :: [toHexChar (c / 65536 % 16),
      toHexChar (c / 4096 % 16), toHexChar (c / 256 % 16),
      toHexChar (c / 16 % 16), toHexChar (c % 16)]) = c := by
    simp only [hexFold, List.foldl_cons, List.foldl_nil, hv]
    omega
  rw [hfold]

/-- Witness for C7 at the concrete color `#bbaadd`. -/
theorem claim7_roundtrip_witness :
    (12298973 : Nat) < 16777216 ∧
      hex2color (formatColor 12298973) = some (Int.ofNat 12298973) :=
  ⟨by decide, claim7_roundtrip 12298973 (by decide)⟩

/-- C8: for every byte, `quantize` agrees with the mask-and-replicate
formula `top | top >> 3 | top >> 6` (`top = x & 0b11100000`), is idempotent,
and its image is contained in an 8-element set. -/
theorem claim8_quantize :
    (∀ x : Fin 256,
      quantize x.val =
        (x.val &&& 224) ||| ((x.val &&& 224) >>> 3) ||| ((x.val &&& 224) >>> 6) ∧
      quantize (quantize x.val) = quantize x.val ∧
      quantize x.val ∈ [0, 36, 73, 109, 146, 182, 219, 255]) ∧
    ([0, 36, 73, 109, 146, 182, 219, 255] : List Nat).length = 8 := by
  set_option maxRecDepth 100000 in decide

/-- C6: strings fully matching the strict hex pattern bypass the name
service completely: the result is the parsed hex color with no canonical
name, for every behavior of the external service; in particular
`resolve("#bad")` yields `#bbaadd` (= 12298973). -/
theorem claim6_hex_bypass :
    (∀ (fE : List Char → Option (List Char × List Char))
        (dA : List Char → List (List Char)) (cs : List Char),
        hexMatch cs = true →
        get_color_info fE dA cs =
          .ok (some (Int.ofNat (hexFold (dup3 (stripHash cs)))), [])) ∧
    (∀ (fE : List Char → Option (List Char × List Char))
        (dA : List Char → List (List Char)),
        get_color_info fE dA ['#', 'b', 'a', 'd'] = .ok (some 12298973, [])) := by
  have main : ∀ (fE : List Char → Option (List Char × List Char))
      (dA : List Char → List (List Char)) (cs : List Char),
      hexMatch cs = true →
      get_color_info fE dA cs =
        .ok (some (Int.ofNat (hexFold (dup3 (stripHash cs)))), []) := by
    intro fE dA cs h
    unfold get_color_info
    rw [if_pos h, hex2color_of_match cs h]
  refine ⟨main, fun fE dA => ?_⟩
  rw [main fE dA ['#', 'b', 'a', 'd'] (by decide)]
  rfl

/-- Witness for C6: with a name service that would resolve everything, the
hex input `"#bad"` still parses as `#bbaadd` and returns no name. -/
theorem claim6_hex_bypass_witness :
    get_color_info (fun _ => some (['0', '0', '0', '0', '0', '0'], ['x']))
      (fun _ => [['y']]) ['#', 'b', 'a', 'd'] =
      .ok (some (Int.ofNat (hexFold (dup3 (stripHash ['#', 'b', 'a', 'd'])))), []) :=
  claim6_hex_bypass.1 _ _ ['#', 'b', 'a', 'd'] (by decide)

/-- C10: when the input does not fully match the hex pattern, resolution
falls through to the name service and never raises a hex-parse error,
provided the service honors its contract (exact lookups return parseable
hex codes, and a single disambiguation candidate is exactly findable); the
result is then one of Resolved `(some v, names)`, Unknown `(none, [])` or
Ambiguous `(none, candidates)`.  Malformed hex-looking inputs such as
`"#abcd"` surface as Unknown, see the witness. -/
theorem claim10_no_parse_error
    (fE : List Char → Option (List Char × List Char))
    (dA : List Char → List (List Char)) (cs : List Char)
    (hm : hexMatch cs = false)
    (hfE : ∀ n code canonical, fE n = some (code, canonical) →
      (hex2color code).isSome = true)
    (hdA : ∀ n b, dA n = [b] → (fE b).isSome = true) :
    ∃ p, get_color_info fE dA cs = Except.ok p := by
  unfold get_color_info
  rw [if_neg (by simp [hm])]
  cases hfe : fE cs with
  | some pr =>
    obtain ⟨code, canonical⟩ := pr
    obtain ⟨v, hv⟩ := Option.isSome_iff_exists.1 (hfE cs code canonical hfe)
    exact ⟨(some v, [canonical]), by simp only [hv]⟩
  | none =>
    cases hda : dA cs with
    | nil => exact ⟨_, rfl⟩
    | cons b t =>
      cases t with
      | nil =>
        obtain ⟨pr, hfeb⟩ := Option.isSome_iff_exists.1 (hdA cs b hda)
        obtain ⟨code, canonical⟩ := pr
        obtain ⟨v, hv⟩ := Option.isSome_iff_exists.1 (hfE b code canonical hfeb)
        exact ⟨(some v, [canonical]), by simp only [hfeb, hv]⟩
      | cons t1 t2 => exact ⟨_, rfl⟩

/-- Witness for C10: `"#abcd"` (4 hex digits, not a valid pattern) with an
empty name service resolves without an exception. -/
theorem claim10_no_parse_error_witness :
    hexMatch ['#', 'a', 'b', 'c', 'd'] = false ∧
      ∃ p, get_color_info (fun _ => none) (fun _ => [])
        ['#', 'a', 'b', 'c', 'd'] = Except.ok p :=
  ⟨by decide,
    claim10_no_parse_error (fun _ => none) (fun _ => []) ['#', 'a', 'b', 'c', 'd']
      (by decide) (fun n code canonical h => by exact absurd h (by simp))
      (fun n b h => by exact absurd h (by simp))⟩

/-! ## Claim theorems: LuminanceClamp and the pipeline -/

/-- C5: whenever the relative luminance of the floored sRGB fractions lies
inside the band `[minL, maxL]`, `clamp_luminance` returns its input
unchanged — for every luminance function, hence in particular for the
floating-point one of the source. -/
theorem claim5_clamp_identity (lum : ℚ × ℚ × ℚ → ℚ) (minL maxL : ℚ) (c : Nat)
    (h1 : minL ≤ lum (srgbOf c)) (h2 : lum (srgbOf c) ≤ maxL) :
    clamp_luminance lum minL maxL c = c := by
  simp only [clamp_luminance]
  rw [if_neg (not_lt.2 h1), if_neg (not_lt.2 h2)]

/-- Witness for C5: the constant luminance `1/2` lies inside the default
band `[0.15, 0.75]`, so `#646464` is returned unchanged. -/
theorem claim5_clamp_identity_witness :
    (3 / 20 : ℚ) ≤ (fun _ : ℚ × ℚ × ℚ => (1 : ℚ) / 2) (srgbOf 6579300) ∧
      (fun _ : ℚ × ℚ × ℚ => (1 : ℚ) / 2) (srgbOf 6579300) ≤ 3 / 4 ∧
      clamp_luminance (fun _ : ℚ × ℚ × ℚ => (1 : ℚ) / 2) (3 / 20) (3 / 4)
        6579300 = 6579300 :=
  ⟨by with_unfolding_all exact of_decide_eq_true rfl,
    by with_unfolding_all exact of_decide_eq_true rfl,
    claim5_clamp_identity (fun _ => 1 / 2) (3 / 20) (3 / 4) 6579300
      (by with_unfolding_all exact of_decide_eq_true rfl)
      (by with_unfolding_all exact of_decide_eq_true rfl)⟩

/-- C2 counterexample: the pipeline does not clamp before quantizing.  At
the concrete color `#0a0a0a` (with the luminance instance `lum = first sRGB
fraction` and the default band), the code's pipeline yields `#262626` while
the claimed order (clamp first, then quantize) yields `#242424`. -/
theorem claim2_counterexample :
    effective_of (fun t => t.1) true (3 / 20) (3 / 4) 657930 = 2500134 ∧
      rgb9 (clamp_luminance (fun t => t.1) (3 / 20) (3 / 4) 657930) = 2368548 ∧
      (2500134 : Nat) ≠ 2368548 :=
  ⟨by with_unfolding_all exact rfl, by with_unfolding_all exact rfl, by decide⟩

/-- C2 (amended): in the resolve-and-assign flow the Quantizer runs first
(when the restricted palette is enabled) and `clamp_luminance` runs on its
output; with the palette disabled only the clamp runs.  (By the
counterexample, this order is not interchangeable with the claimed one.) -/
theorem claim2_amended (lum : ℚ × ℚ × ℚ → ℚ) (minL maxL : ℚ) (d : Nat) :
    effective_of lum true minL maxL d = clamp_luminance lum minL maxL (rgb9 d) ∧
      effective_of lum false minL maxL d = clamp_luminance lum minL maxL d :=
  ⟨rfl, rfl⟩

/-! ## Lemmas on roles and keys -/

theorem dropPre_append (pre cs : List Char) :
    dropPre pre (pre ++ cs) = some cs := by
  induction pre with
  | nil => rfl
  | cons p ps ih =>
    rw [List.cons_append, dropPre, if_pos rfl]
    exact ih

theorem hexDigitsOf_all_hex (c : Nat) :
    (hexDigitsOf c).all isHexDigitChar = true := by
  refine List.all_eq_true.2 fun d hd => ?_
  simp only [hexDigitsOf, List.mem_cons, List.not_mem_nil, or_false] at hd
  rcases hd with rfl | rfl | rfl | rfl | rfl | rfl <;>
    exact isHex_toHexChar _ (Nat.mod_lt _ (by norm_num))

theorem toLower_toHexChar (d : Nat) (h : d < 16) :
    Char.toLower (toHexChar d) = toHexChar d := by
  interval_cases d <;> decide

/-- The name of a freshly created color role — the configured prefix
followed by `str(color)` — has exactly the canonical hex code as its key. -/
theorem key_for_role_format (pre : List Char) (c : Nat) :
    key_for_role pre (pre ++ formatColor c) = some (formatColor c) := by
  have hmap : (formatColor c).map Char.toLower = formatColor c := by
    simp only [formatColor, hexDigitsOf, List.map_cons, List.map_nil,
      show Char.toLower '#' = '#' from by decide]
    rw [toLower_toHexChar _ (Nat.mod_lt _ (by norm_num)),
      toLower_toHexChar _ (Nat.mod_lt _ (by norm_num)),
      toLower_toHexChar _ (Nat.mod_lt _ (by norm_num)),
      toLower_toHexChar _ (Nat.mod_lt _ (by norm_num)),
      toLower_toHexChar _ (Nat.mod_lt _ (by norm_num)),
      toLower_toHexChar _ (Nat.mod_lt _ (by norm_num))]
  unfold key_for_role
  rw [dropPre_append]
  simp only [formatColor]
  rw [if_pos ⟨by simp [hexDigitsOf], hexDigitsOf_all_hex c⟩]
  rw [show ('#' :: hexDigitsOf c).map Char.toLower = '#' :: hexDigitsOf c from hmap]

theorem is_color_role_format (pre : List Char) (c : Nat) :
    is_color_role pre (pre ++ formatColor c) = true := by
  rw [is_color_role, key_for_role_format]
  rfl

/-- Distinct-id lists determine roles by their id. -/
theorem pairwise_id_inj (l : List Role)
    (hp : l.Pairwise (fun a b => a.id ≠ b.id)) :
    ∀ r ∈ l, ∀ q ∈ l, r.id = q.id → r = q := by
  induction l with
  | nil => intro r hr; simp at hr
  | cons a t ih =>
    rw [List.pairwise_cons] at hp
    intro r hr q hq heq
    rcases List.mem_cons.1 hr with rfl | hr' <;>
      rcases List.mem_cons.1 hq with rfl | hq'
    · rfl
    · exact absurd heq (hp.1 q hq')
    · exact absurd heq.symm (hp.1 r hr')
    · exact ih hp.2 r hr' q hq' heq

/-- Under distinct ids, filtering out the ids of the member's color roles is
the same as filtering out the color roles themselves. -/
theorem filter_not_old (pre : List Char) (mr : List Role)
    (hp : mr.Pairwise (fun a b => a.id ≠ b.id)) :
    mr.filter (fun r =>
        decide (r.id ∉ (mr.filter (fun r => is_color_role pre r.name)).map Role.id)) =
      mr.filter (fun r => !(is_color_role pre r.name)) := by
  refine List.filter_congr fun r hr => ?_
  by_cases hc : is_color_role pre r.name
  · have hmem : r.id ∈ (mr.filter (fun r => is_color_role pre r.name)).map Role.id :=
      List.mem_map.2 ⟨r, List.mem_filter.2 ⟨hr, hc⟩, rfl⟩
    simp [hmem, hc]
  · have hnmem : r.id ∉ (mr.filter (fun r => is_color_role pre r.name)).map Role.id := by
      intro hmem
      obtain ⟨q, hq, hqid⟩ := List.mem_map.1 hmem
      obtain ⟨hqmr, hqc⟩ := List.mem_filter.1 hq
      exact hc (pairwise_id_inj mr hp q hqmr r hr hqid ▸ hqc)
    simp [hnmem, hc]

/-- C1 (spec-modelled store): for a member whose roles have distinct ids,
`set_color` with a color replaces the membership by exactly the previous
non-color roles plus one role keyed by the color's canonical hex code; with
`None` it removes the color roles, keeps the non-color roles, and leaves the
server's tag store untouched; in both cases the member ends up holding at
most one color role. -/
theorem claim1_set_color (pre : List Char) (server mr : List Role) (fid : Nat)
    (hids : mr.Pairwise (fun a b => a.id ≠ b.id)) :
    (∀ c : Nat, c < 16777216 →
      ∃ nr : Role,
        (set_color pre server mr fid (some c)).2 =
          mr.filter (fun r => !(is_color_role pre r.name)) ++ [nr] ∧
        key_for_role pre nr.name = some (formatColor c) ∧
        (set_color pre server mr fid (some c)).2.filter
          (fun r => is_color_role pre r.name) = [nr] ∧
        ((set_color pre server mr fid (some c)).2.filter
          (fun r => is_color_role pre r.name)).length ≤ 1) ∧
    ((set_color pre server mr fid none).1 = server ∧
      (set_color pre server mr fid none).2 =
        mr.filter (fun r => !(is_color_role pre r.name)) ∧
      (set_color pre server mr fid none).2.filter
        (fun r => is_color_role pre r.name) = []) := by
  have hdrop : (mr.filter (fun r => !(is_color_role pre r.name))).filter
      (fun r => is_color_role pre r.name) = [] := by
    refine List.filter_eq_nil_iff.2 fun a ha => ?_
    have := (List.mem_filter.1 ha).2
    simp only [Bool.not_eq_true'] at this
    simp [this]
  constructor
  · intro c _hc
    rcases hrole : get_role pre server (formatColor c) with _ | r
    · refine ⟨⟨fid, pre ++ formatColor c⟩, ?_, key_for_role_format pre c, ?_, ?_⟩
      · simp only [set_color, role_for_color, hrole]
        rw [filter_not_old pre mr hids]
      · simp only [set_color, role_for_color, hrole]
        rw [filter_not_old pre mr hids, List.filter_append, hdrop,
          List.nil_append]
        simp [is_color_role_format pre c]
      · simp only [set_color, role_for_color, hrole]
        rw [filter_not_old pre mr hids, List.filter_append, hdrop,
          List.nil_append]
        simp [is_color_role_format pre c]
    · have hrole' : List.find?
          (fun q => decide (key_for_role pre q.name = some (formatColor c)))
          server = some r := hrole
      have hfind := List.find?_some hrole'
      have hkey : key_for_role pre r.name = some (formatColor c) :=
        of_decide_eq_true hfind
      have hcol : is_color_role pre r.name = true := by
        rw [is_color_role, hkey]
        rfl
      refine ⟨r, ?_, hkey, ?_, ?_⟩
      · simp only [set_color, role_for_color, hrole]
        rw [filter_not_old pre mr hids]
      · simp only [set_color, role_for_color, hrole]
        rw [filter_not_old pre mr hids, List.filter_append, hdrop,
          List.nil_append]
        simp [hcol]
      · simp only [set_color, role_for_color, hrole]
        rw [filter_not_old pre mr hids, List.filter_append, hdrop,
          List.nil_append]
        simp [hcol]
  · refine ⟨rfl, ?_, ?_⟩
    · simp only [set_color]
      rw [filter_not_old pre mr hids]
    · simp only [set_color]
      rw [filter_not_old pre mr hids, hdrop]

/-- Witness for C1 at a concrete member holding one color role `#aabbcc`
and one unrelated role, assigning `#abcdef` and resetting. -/
theorem claim1_set_color_witness :
    (∃ nr : Role,
      (set_color ['c'] [⟨7, ['c', '#', 'a', 'a', 'b', 'b', 'c', 'c']⟩]
          [⟨1, ['x']⟩, ⟨7, ['c', '#', 'a', 'a', 'b', 'b', 'c', 'c']⟩] 9
          (some 11259375)).2 =
        ([⟨1, ['x']⟩, ⟨7, ['c', '#', 'a', 'a', 'b', 'b', 'c', 'c']⟩] :
          List Role).filter (fun r => !(is_color_role ['c'] r.name)) ++ [nr] ∧
      key_for_role ['c'] nr.name = some (formatColor 11259375) ∧
      (set_color ['c'] [⟨7, ['c', '#', 'a', 'a', 'b', 'b', 'c', 'c']⟩]
          [⟨1, ['x']⟩, ⟨7, ['c', '#', 'a', 'a', 'b', 'b', 'c', 'c']⟩] 9
          (some 11259375)).2.filter (fun r => is_color_role ['c'] r.name) = [nr] ∧
      ((set_color ['c'] [⟨7, ['c', '#', 'a', 'a', 'b', 'b', 'c', 'c']⟩]
          [⟨1, ['x']⟩, ⟨7, ['c', '#', 'a', 'a', 'b', 'b', 'c', 'c']⟩] 9
          (some 11259375)).2.filter (fun r => is_color_role ['c'] r.name)).length ≤ 1) ∧
    ((set_color ['c'] [⟨7, ['c', '#', 'a', 'a', 'b', 'b', 'c', 'c']⟩]
        [⟨1, ['x']⟩, ⟨7, ['c', '#', 'a', 'a', 'b', 'b', 'c', 'c']⟩] 9 none).1 =
      [⟨7, ['c', '#', 'a', 'a', 'b', 'b', 'c', 'c']⟩] ∧
      (set_color ['c'] [⟨7, ['c', '#', 'a', 'a', 'b', 'b', 'c', 'c']⟩]
          [⟨1, ['x']⟩, ⟨7, ['c', '#', 'a', 'a', 'b', 'b', 'c', 'c']⟩] 9 none).2 =
        ([⟨1, ['x']⟩, ⟨7, ['c', '#', 'a', 'a', 'b', 'b', 'c', 'c']⟩] :
          List Role).filter (fun r => !(is_color_role ['c'] r.name)) ∧
      (set_color ['c'] [⟨7, ['c', '#', 'a', 'a', 'b', 'b', 'c', 'c']⟩]
          [⟨1, ['x']⟩, ⟨7, ['c', '#', 'a', 'a', 'b', 'b', 'c', 'c']⟩] 9 none).2.filter
        (fun r => is_color_role ['c'] r.name) = []) :=
  ⟨(claim1_set_color ['c'] [⟨7, ['c', '#', 'a', 'a', 'b', 'b', 'c', 'c']⟩]
      [⟨1, ['x']⟩, ⟨7, ['c', '#', 'a', 'a', 'b', 'b', 'c', 'c']⟩] 9
      (by decide)).1 11259375 (by decide),
    (claim1_set_color ['c'] [⟨7, ['c', '#', 'a', 'a', 'b', 'b', 'c', 'c']⟩]
      [⟨1, ['x']⟩, ⟨7, ['c', '#', 'a', 'a', 'b', 'b', 'c', 'c']⟩] 9
      (by decide)).2⟩

/-- C9 counterexample: the check-then-create of `role_for_color` is not
idempotent under concurrent interleavings.  Two coroutines requesting the
new key `#abcdef` under the schedule lookup₀, lookup₁, create₀, create₁
leave two tags for the same hex code in the store. -/
theorem claim9_counterexample :
    countKey [] (formatColor 11259375)
      (raceRun [] (formatColor 11259375) 1 2 [false, true, false, true]
        ⟨[], .start, .start⟩).roles = 2 := by
  decide

/-- C9 (amended): when the two `role_for_color` calls do not interleave
(each runs lookup and create to completion before the other starts), the
second call finds the tag created by the first and exactly one tag for the
hex code exists afterwards; under interleaving the duplicate of the
counterexample is possible. -/
theorem claim9_amended (pre : List Char) (c : Nat) (fid0 fid1 : Nat)
    (_hc : c < 16777216) :
    countKey pre (formatColor c)
      (raceRun pre (formatColor c) fid0 fid1 [false, false, true, true]
        ⟨[], .start, .start⟩).roles = 1 := by
  have hfound : get_role pre [⟨fid0, pre ++ formatColor c⟩] (formatColor c) =
      some ⟨fid0, pre ++ formatColor c⟩ := by
    unfold get_role
    exact List.find?_cons_of_pos _ (decide_eq_true (key_for_role_format pre c))
  have e1 : raceStep pre (formatColor c) fid0 fid1 ⟨[], .start, .start⟩ false =
      ⟨[], .looked false, .start⟩ := rfl
  have e2 : raceStep pre (formatColor c) fid0 fid1 ⟨[], .looked false, .start⟩
      false = ⟨[⟨fid0, pre ++ formatColor c⟩], .done, .start⟩ := rfl
  have e3 : raceStep pre (formatColor c) fid0 fid1
      ⟨[⟨fid0, pre ++ formatColor c⟩], .done, .start⟩ true =
      ⟨[⟨fid0, pre ++ formatColor c⟩], .done, .looked true⟩ := by
    simp [raceStep, taskStep, hfound]
  have e4 : raceStep pre (formatColor c) fid0 fid1
      ⟨[⟨fid0, pre ++ formatColor c⟩], .done, .looked true⟩ true =
      ⟨[⟨fid0, pre ++ formatColor c⟩], .done, .done⟩ := rfl
  have hrun : raceRun pre (formatColor c) fid0 fid1 [false, false, true, true]
      ⟨[], .start, .start⟩ = ⟨[⟨fid0, pre ++ formatColor c⟩], .done, .done⟩ := by
    rw [raceRun, List.foldl_cons, e1, List.foldl_cons, e2, List.foldl_cons, e3,
      List.foldl_cons, e4, List.foldl_nil]
  rw [hrun]
  simp [countKey, key_for_role_format pre c]

/-- Witness for C9 (amended): two sequential requests for the new key
`#abcdef` create exactly one tag. -/
theorem claim9_amended_witness :
    countKey [] (formatColor 11259375)
      (raceRun [] (formatColor 11259375) 1 2 [false, false, true, true]
        ⟨[], .start, .start⟩).roles = 1 :=
  claim9_amended [] 11259375 1 2 (by decide)

end Irisbot
